import Mathlib

/-!
Shallow embedding of the `git-scan` repository (src/git_scan/git_scan.py,
src/git_scan/commit.py, src/git_scan/datafile.py).

The external git object store is modelled as a partial map from object
identifier to the decoded (`git cat-file -p`) text of that object; the batch
listing (`git cat-file --batch-check --batch-all-objects`) is modelled as the
raw text it prints.  Python strings are Lean `String`s; the Python string
operations used by the code (`str.split`, `str.strip`, `str.endswith`,
`str.startswith`, slicing, `int(...)`) are re-implemented structurally on the
character list so that they evaluate by kernel reduction.  Python exceptions
(`ValueError` from unpacking or `int`, `IndexError`, `RuntimeError` from a
failed subprocess) are modelled with `Except`.  `pathlib.Path` values are
modelled by their `parts` tuple (`Path(".")` has empty parts, and
`str(Path("."))` is `"."`).  The recursion of `scan_files` over subtrees is
fuelled; running out of fuel is a distinguished error that corresponds to no
behaviour of the Python code (git object graphs are acyclic), and every
theorem either supplies enough fuel or holds for all fuel values.
-/

namespace GitScan

/-! ### Python string primitives -/

/-- Split a character list at every separator character, keeping empty
groups: the model of Python `str.split(sep)` for a one-character `sep`. -/
def splitChar (sep : Char) : List Char → List (List Char)
  | [] => [[]]
  | c :: cs =>
    if c = sep then [] :: splitChar sep cs
    else
      match splitChar sep cs with
      | g :: gs => (c :: g) :: gs
      | [] => [[c]]

/-- Model of Python `str.split("\n")`: the list of lines, keeping empty
lines; the empty string yields the single empty line. -/
def pyLines (s : String) : List String :=
  (splitChar '\n' s.data).map String.mk

/-- Groups of a character list split at every whitespace character,
keeping empty groups. -/
def splitWhite : List Char → List (List Char)
  | [] => [[]]
  | c :: cs =>
    if c.isWhitespace then [] :: splitWhite cs
    else
      match splitWhite cs with
      | g :: gs => (c :: g) :: gs
      | [] => [[c]]

/-- Model of Python `str.split()` (no argument): split on runs of
whitespace, discarding empty fields. -/
def pySplit (s : String) : List String :=
  ((splitWhite s.data).filter (fun g => g ≠ [])).map String.mk

/-- Model of Python `str.strip()`: drop leading and trailing whitespace. -/
def pyStrip (s : String) : String :=
  String.mk (((s.data.dropWhile Char.isWhitespace).reverse.dropWhile Char.isWhitespace).reverse)

/-- Model of Python `str.endswith(t)`: `t` is a suffix of `s`. -/
def pyEndsWith (s t : String) : Bool :=
  t.data.isSuffixOf s.data

/-- Model of Python `str.startswith(t)`: `t` is a prefix of `s`. -/
def pyStartsWith (s t : String) : Bool :=
  t.data.isPrefixOf s.data

/-- Model of Python `s[a:b]` for nonnegative bounds. -/
def pySlice (s : String) (a b : Nat) : String :=
  String.mk ((s.data.drop a).take (b - a))

/-- Model of Python `s[a:]` for a nonnegative bound. -/
def pyDropSlice (s : String) (a : Nat) : String :=
  String.mk (s.data.drop a)

/-- Decimal value of a digit list (already validated). -/
def digitsVal (l : List Char) : Nat :=
  l.foldl (fun n c => n * 10 + (c.toNat - '0'.toNat)) 0

/-- Model of Python `int(s)`: optional surrounding whitespace, optional
sign, then at least one decimal digit; `none` models the `ValueError`
raised on any other input (in particular on the empty string). -/
def pyInt (s : String) : Option Int :=
  match (pyStrip s).data with
  | '-' :: ds => if ds ≠ [] ∧ ds.all Char.isDigit then some (-(digitsVal ds : Int)) else none
  | '+' :: ds => if ds ≠ [] ∧ ds.all Char.isDigit then some ((digitsVal ds : Int)) else none
  | ds => if ds ≠ [] ∧ ds.all Char.isDigit then some ((digitsVal ds : Int)) else none

/-! ### pathlib.Path model -/

/-- A `pathlib.Path` is modelled by its `parts`: `Path(".")` (the default
repository path) has no parts, and `path / name` appends one part. -/
abbrev Path := List String

/-- Model of `str(path)` for a relative path: `Path(".")` prints as `"."`,
otherwise the parts are joined with `/`. -/
def pathStr : Path → String
  | [] => "."
  | segs => String.intercalate "/" segs

/-! ### Data model (datafile.py, commit.py) -/

/-- `DataFile` from datafile.py: entry name, containing folder, blob hash. -/
structure DataFile where
  name : String
  folder : Path
  hash : String
deriving DecidableEq, Repr

/-- `Commit` from commit.py.  `time` is the Unix timestamp (an aware
`datetime` compares by its absolute instant, so `Commit.__gt__`, and hence
`commits.sort()`, order commits by this integer); `tzOffset` is the fixed
UTC offset in minutes built by `Commit._convert_timezone`, which only
affects how the datetime is displayed. -/
structure Commit where
  hash : String
  tree_hash : String
  time : Int
  tzOffset : Int
deriving DecidableEq, Repr

/-- The Python exceptions the program can raise:
`storeRead` models the `RuntimeError` wrapping a failed `git cat-file`,
`unpack` the `ValueError` from tuple unpacking of a `str.split()` result,
`value` the `ValueError` from `int(...)` or from an out-of-range
`dt.timezone` offset, `index` the `IndexError` from `parts[1]`/`parts[-2]`,
and `fuel` is the artificial out-of-fuel marker of the embedding. -/
inductive ScanErr where
  | storeRead
  | unpack
  | value
  | index
  | fuel
deriving DecidableEq, Repr

/-- The module-level mutable state of git_scan.py: `tree_cache` (tree hash
to computed data-file list, newest binding first) and `files_seen` (the set
of blob-id key strings already reported). -/
structure ScanState where
  treeCache : List (String × List DataFile)
  filesSeen : List String
deriving DecidableEq, Repr

/-- The object store: object hash to decoded object text. -/
abbrev Store := String → Option String

/-- `EXTENSIONS` from git_scan.py. -/
def EXTENSIONS : List String :=
  ["csv", "ipynb", "parquet", "pbix", "pptx", "tsv", "xls", "xlsx", "xlsb", "xml"]

/-- The extension test of `scan_files`: the loop
`for extension in EXTENSIONS: if line.endswith(extension)` applied to the
raw entry line. -/
def matchesExtensions (line : String) : Bool :=
  EXTENSIONS.any (fun ext => pyEndsWith line ext)

/-- The dedup key built in `scan_files`: `f"{ohash}_{sub_path}_{oname}"`. -/
def blobKey (ohash : String) (subPath : Path) (oname : String) : String :=
  ohash ++ "_" ++ pathStr subPath ++ "_" ++ oname

/-- The dedup key a reported `DataFile` was recorded under
(`DataFile(oname, sub_path, ohash)` is reported exactly when
`blobKey ohash sub_path oname` is added to `files_seen`). -/
def DataFile.key (d : DataFile) : String :=
  blobKey d.hash d.folder d.name

/-! ### Tree walker (`scan_files`) -/

/-- One iteration of the entry-line loop of `scan_files`:
`_, otype, ohash, oname = line.split()` (an unpacking `ValueError` unless
exactly four fields), then the subtree / blob handling.  `recur` is the
recursive call used for a subtree entry. -/
def scanLine (recur : String → Path → ScanState → Except ScanErr (List DataFile × ScanState))
    (subPath : Path) (line : String) (st : ScanState) :
    Except ScanErr (List DataFile × ScanState) :=
  match pySplit line with
  | [_mode, otype, ohash, oname] =>
    if otype = "tree" then
      recur ohash (subPath ++ [oname]) st
    else if otype = "blob" then
      if blobKey ohash subPath oname ∈ st.filesSeen then
        .ok ([], st)
      else if matchesExtensions line then
        .ok ([⟨oname, subPath, ohash⟩],
          { st with filesSeen := blobKey ohash subPath oname :: st.filesSeen })
      else
        .ok ([], st)
    else
      .ok ([], st)
  | _ => .error .unpack

/-- The entry-line loop of `scan_files`, accumulating `data_files` in
order and threading the mutable state. -/
def scanLines (recur : String → Path → ScanState → Except ScanErr (List DataFile × ScanState))
    (subPath : Path) : List String → ScanState → Except ScanErr (List DataFile × ScanState)
  | [], st => .ok ([], st)
  | line :: rest, st =>
    match scanLine recur subPath line st with
    | .error e => .error e
    | .ok (fs1, st1) =>
      match scanLines recur subPath rest st1 with
      | .error e => .error e
      | .ok (fs2, st2) => .ok (fs1 ++ fs2, st2)

/-- `scan_files` from git_scan.py.  A cached tree hash returns `[]` at
once; otherwise the tree text is fetched from the store (a missing object
models the `RuntimeError` branch), stripped, split into lines, the lines
are processed, and finally the accumulated list is stored in `tree_cache`
under the tree hash. -/
def scan_files : Nat → Store → String → Path → ScanState →
    Except ScanErr (List DataFile × ScanState)
  | 0, _, _, _, _ => .error .fuel
  | fuel + 1, store, treeHash, subPath, st =>
    if (st.treeCache.lookup treeHash).isSome then
      .ok ([], st)
    else
      match store treeHash with
      | none => .error .storeRead
      | some out =>
        match scanLines (scan_files fuel store) subPath (pyLines (pyStrip out)) st with
        | .error e => .error e
        | .ok (fs, st1) => .ok (fs, { st1 with treeCache := (treeHash, fs) :: st1.treeCache })

/-! ### Commit model (`parse_commit`, `Commit.__init__`) -/

/-- `Commit._convert_timezone` from commit.py, returning the fixed UTC
offset in minutes: `hours = int(offset_str[1:3])`, negated when the string
starts with `-`; `minutes = int(offset_str[3:])`; `dt.timezone` then
requires the offset to lie strictly between -24h and 24h. -/
def convert_timezone (offset_str : String) : Except ScanErr Int :=
  match pyInt (pySlice offset_str 1 3) with
  | none => .error .value
  | some h =>
    match pyInt (pyDropSlice offset_str 3) with
    | none => .error .value
    | some minutes =>
      let off := (if pyStartsWith offset_str "-" then -h else h) * 60 + minutes
      if -1440 < off ∧ off < 1440 then .ok off else .error .value

/-- The field-extraction loop of `parse_commit`: starting from the empty
strings, a line starting with `tree` overwrites the tree hash with its
second field (`line.split()[1]`, an `IndexError` if absent), and a line
starting with `committer` overwrites timestamp and timezone with its last
two fields (`parts[-2]`, `parts[-1]`). -/
def parseFields (acc : String × String × String) (line : String) :
    Except ScanErr (String × String × String) :=
  if pyStartsWith line "tree" then
    match pySplit line with
    | _ :: t :: _ => .ok (t, acc.2.1, acc.2.2)
    | _ => .error .index
  else if pyStartsWith line "committer" then
    match (pySplit line).reverse with
    | tz :: ts :: _ => .ok (acc.1, ts, tz)
    | _ => .error .index
  else
    .ok acc

/-- `parse_commit` from git_scan.py composed with `Commit.__init__` from
commit.py: scan the stripped commit text line by line, then build the
`Commit` (the timezone is converted before the timestamp is read, matching
the evaluation order of `Commit.__init__`). -/
def parse_commit (commit_hash : String) (content : String) : Except ScanErr Commit :=
  match (pyLines (pyStrip content)).foldlM parseFields ("", "", "") with
  | .error e => .error e
  | .ok acc =>
    match convert_timezone acc.2.2 with
    | .error e => .error e
    | .ok tzOff =>
      match pyInt acc.2.1 with
      | none => .error .value
      | some time => .ok ⟨commit_hash, acc.1, time, tzOff⟩

/-! ### Object listing and orchestrator (`get_all_objects`, `get_commits`, `main`) -/

/-- One line of the batch listing: `ohash, otype, _ = line.split()`
(an unpacking `ValueError` unless exactly three fields). -/
def parseListingLine (line : String) : Except ScanErr (String × String) :=
  match pySplit line with
  | [ohash, otype, _sz] => .ok (ohash, otype)
  | _ => .error .unpack

/-- `get_all_objects` from git_scan.py, as the ordered list of
(hash, type) pairs parsed from the raw batch listing (the `defaultdict`
groups by type preserving encounter order, so the later
`repo_objects["commit"]` is recovered by filtering this list). -/
def get_all_objects (listing : String) : Except ScanErr (List (String × String)) :=
  (pyLines (pyStrip listing)).mapM parseListingLine

/-- The stable ascending sort performed by `commits.sort()`: Python's
Timsort is stable and, with only `Commit.__gt__` defined, `a < b`
evaluates the reflected `b > a`, i.e. compares the datetimes and hence the
timestamps.  A stable sort by non-strict timestamp order is unique, so
insertion sort models it. -/
def sortCommits (cs : List Commit) : List Commit :=
  cs.insertionSort (fun a b => a.time ≤ b.time)

/-- Fetch one commit object and parse it (`parse_commit` with its
`git cat-file -p` subprocess call). -/
def fetchCommit (store : Store) (h : String) : Except ScanErr Commit :=
  match store h with
  | none => .error .storeRead
  | some content => parse_commit h content

/-- `get_commits` from git_scan.py: parse every commit object, then sort
by timestamp. -/
def get_commits (store : Store) (commitHashes : List String) : Except ScanErr (List Commit) :=
  match commitHashes.mapM (fetchCommit store) with
  | .error e => .error e
  | .ok commits => .ok (sortCommits commits)

/-- The per-commit step of `main`'s loop: walk the commit's root tree
starting from the repository path and record the result when non-empty. -/
def mainStep (fuel : Nat) (store : Store) (repoPath : Path)
    (acc : List (Commit × List DataFile) × ScanState) (c : Commit) :
    Except ScanErr (List (Commit × List DataFile) × ScanState) :=
  match scan_files fuel store c.tree_hash repoPath acc.2 with
  | .error e => .error e
  | .ok (fs, st') => if fs = [] then .ok (acc.1, st') else .ok (acc.1 ++ [(c, fs)], st')

/-- `main` from git_scan.py up to (and excluding) CSV serialization:
enumerate objects, take the hashes listed with type `commit` in order,
parse and sort them, then scan each commit's tree
(`scan_files(commit.tree_hash, repo_path, repo_path)`) with the shared,
initially empty cache state, keeping commits with a non-empty result.
The result models the insertion-ordered `data_files` dict. -/
def runScan (fuel : Nat) (store : Store) (listing : String) (repoPath : Path) :
    Except ScanErr (List (Commit × List DataFile)) :=
  match get_all_objects listing with
  | .error e => .error e
  | .ok objs =>
    match get_commits store ((objs.filter (fun p => p.2 = "commit")).map (·.1)) with
    | .error e => .error e
    | .ok commits =>
      match commits.foldlM (mainStep fuel store repoPath) ([], ⟨[], []⟩) with
      | .error e => .error e
      | .ok (result, _) => .ok result

/-- All data files of the final mapping, in iteration order. -/
def allFiles : List (Commit × List DataFile) → List DataFile
  | [] => []
  | (_, fs) :: rest => fs ++ allFiles rest

/-! ### Concrete object stores used to exercise the model -/

/-- One commit, one root tree holding the single blob `sales.xlsx`. -/
def oneStore : Store := fun h =>
  if h = "c1" then some "tree t1\ncommitter Ann <a@b.c> 100 +0000"
  else if h = "t1" then some "100644 blob b1 sales.xlsx"
  else none

/-- Batch listing for `oneStore`. -/
def oneListing : String := "c1 commit 240\nt1 tree 33\nb1 blob 9"

/-- Two commits, listed newest-first, whose trees each hold one data file;
sorting by timestamp must swap them. -/
def twoStore : Store := fun h =>
  if h = "c1" then some "tree TA\ncommitter Ann <a@b.c> 200 +0000"
  else if h = "c2" then some "tree TB\ncommitter Ann <a@b.c> 100 +0000"
  else if h = "TA" then some "100644 blob ha a.csv"
  else if h = "TB" then some "100644 blob hb b.csv"
  else none

/-- Batch listing for `twoStore`. -/
def twoListing : String := "c1 commit 240\nc2 commit 240\nTA tree 33\nTB tree 33\nha blob 9\nhb blob 9"

/-- Two commits with distinct trees that both contain the blob
`(h, root, d.csv)`; the second tree also holds an unmatched file. -/
def dupStore : Store := fun h =>
  if h = "c1" then some "tree TA\ncommitter Ann <a@b.c> 100 +0000"
  else if h = "c2" then some "tree TB\ncommitter Ann <a@b.c> 200 +0000"
  else if h = "TA" then some "100644 blob h d.csv"
  else if h = "TB" then some "100644 blob h d.csv\n100644 blob h2 x.txt"
  else none

/-- Batch listing for `dupStore`. -/
def dupListing : String := "c1 commit 240\nc2 commit 240\nTA tree 33\nTB tree 40\nh blob 9\nh2 blob 9"

/-- Two commits whose trees nest the same blob hash `h` under
`a_b/c.csv` and `a/b_c.csv` respectively: distinct (hash, folder, name)
triples whose underscore-joined dedup keys coincide. -/
def collisionStore : Store := fun h =>
  if h = "c1" then some "tree T1\ncommitter Ann <a@b.c> 100 +0000"
  else if h = "c2" then some "tree T2\ncommitter Ann <a@b.c> 200 +0000"
  else if h = "T1" then some "040000 tree S1 a_b"
  else if h = "T2" then some "040000 tree S2 a"
  else if h = "S1" then some "100644 blob h c.csv"
  else if h = "S2" then some "100644 blob h b_c.csv"
  else none

/-- Batch listing for `collisionStore`. -/
def collisionListing : String :=
  "c1 commit 240\nc2 commit 240\nT1 tree 33\nT2 tree 33\nS1 tree 33\nS2 tree 33\nh blob 9"

/-- A store holding a single tree object with empty content (a tree with
no entries prints nothing under `git cat-file -p`). -/
def emptyTreeStore : Store := fun h =>
  if h = "t" then some "" else none

/-- A store holding one tree whose single entry line has only three
fields. -/
def badLineStore : Store := fun h =>
  if h = "t" then some "100644 blob habc" else none

/-- A store holding a commit object whose content has no `committer`
line. -/
def noCommitterStore : Store := fun h =>
  if h = "cx" then some "tree t9" else none

/-- Batch listing for `noCommitterStore`. -/
def noCommitterListing : String := "cx commit 240\nt9 tree 33"

/-- A store for the tree-memo witness: a single tree with one data file. -/
def memoStore : Store := fun h =>
  if h = "t" then some "100644 blob h1 a.csv" else none

/-- A scan state whose tree cache already contains the hash `t`. -/
def memoCachedState : ScanState := ⟨[("t", [])], []⟩

/-- The seen-set contract of one successful walk step: the seen set only
grows, every reported file's dedup key is recorded afterwards, none of the
reported keys was recorded before, and the reported keys are pairwise
distinct. -/
def ScanOk (st : ScanState) (fs : List DataFile) (st' : ScanState) : Prop :=
  (∀ k, k ∈ st.filesSeen → k ∈ st'.filesSeen) ∧
  (∀ d ∈ fs, d.key ∈ st'.filesSeen) ∧
  (∀ d ∈ fs, d.key ∉ st.filesSeen) ∧
  fs.Pairwise (fun a b => a.key ≠ b.key)

theorem ScanOk.rfl {st : ScanState} : ScanOk st [] st :=
  ⟨fun _ hk => hk, fun _ h => absurd h (List.not_mem_nil _), fun _ h => absurd h (List.not_mem_nil _),
    List.Pairwise.nil⟩

theorem ScanOk.congrSeen {st st' st'' : ScanState} {fs : List DataFile}
    (h : ScanOk st fs st') (hs : st''.filesSeen = st'.filesSeen) : ScanOk st fs st'' := by
  unfold ScanOk at h ⊢
  rw [hs]
  exact h

theorem ScanOk.comp {st st1 st2 : ScanState} {fs1 fs2 : List DataFile}
    (h1 : ScanOk st fs1 st1) (h2 : ScanOk st1 fs2 st2) : ScanOk st (fs1 ++ fs2) st2 := by
  obtain ⟨g1, m1, n1, p1⟩ := h1
  obtain ⟨g2, m2, n2, p2⟩ := h2
  refine ⟨fun k hk => g2 k (g1 k hk), ?_, ?_, ?_⟩
  · intro d hd
    rcases List.mem_append.mp hd with h | h
    · exact g2 _ (m1 d h)
    · exact m2 d h
  · intro d hd
    rcases List.mem_append.mp hd with h | h
    · exact n1 d h
    · exact fun hmem => n2 d h (g1 _ hmem)
  · refine List.pairwise_append.mpr ⟨p1, p2, ?_⟩
    intro a ha b hb hab
    exact n2 b hb (hab ▸ m1 a ha)

/-- A successful `scanLine` satisfies the seen-set contract, provided the
recursive call does. -/
theorem scanLine_scanOk
    {recur : String → Path → ScanState → Except ScanErr (List DataFile × ScanState)}
    (hrec : ∀ h p st fs st', recur h p st = .ok (fs, st') → ScanOk st fs st')
    {subPath : Path} {line : String} {st : ScanState} {fs : List DataFile} {st' : ScanState}
    (h : scanLine recur subPath line st = .ok (fs, st')) : ScanOk st fs st' := by
  unfold scanLine at h
  split at h
  · split at h
    · exact hrec _ _ _ _ _ h
    · split at h
      · split at h
        · simp only [Except.ok.injEq, Prod.mk.injEq] at h
          obtain ⟨rfl, rfl⟩ := h
          exact ScanOk.rfl
        · split at h
          · rename_i hnotseen _
            simp only [Except.ok.injEq, Prod.mk.injEq] at h
            obtain ⟨rfl, rfl⟩ := h
            refine ⟨fun k hk => List.mem_cons_of_mem _ hk, ?_, ?_, ?_⟩
            · intro d hd
              rcases List.mem_singleton.mp hd with rfl
              exact List.mem_cons_self _ _
            · intro d hd
              rcases List.mem_singleton.mp hd with rfl
              exact hnotseen
            · exact List.pairwise_singleton _ _
          · simp only [Except.ok.injEq, Prod.mk.injEq] at h
            obtain ⟨rfl, rfl⟩ := h
            exact ScanOk.rfl
      · simp only [Except.ok.injEq, Prod.mk.injEq] at h
        obtain ⟨rfl, rfl⟩ := h
        exact ScanOk.rfl
  · exact absurd h (by simp)

/-- A successful `scanLines` satisfies the seen-set contract, provided the
recursive call does. -/
theorem scanLines_scanOk
    {recur : String → Path → ScanState → Except ScanErr (List DataFile × ScanState)}
    (hrec : ∀ h p st fs st', recur h p st = .ok (fs, st') → ScanOk st fs st')
    {subPath : Path} :
    ∀ {lines : List String} {st : ScanState} {fs : List DataFile} {st' : ScanState},
      scanLines recur subPath lines st = .ok (fs, st') → ScanOk st fs st'
  | [], st, fs, st', h => by
    unfold scanLines at h
    simp only [Except.ok.injEq, Prod.mk.injEq] at h
    obtain ⟨rfl, rfl⟩ := h
    exact ScanOk.rfl
  | line :: rest, st, fs, st', h => by
    unfold scanLines at h
    cases h1 : scanLine recur subPath line st with
    | error e => rw [h1] at h; exact absurd h (by simp)
    | ok v =>
      obtain ⟨fs1, st1⟩ := v
      rw [h1] at h
      dsimp only at h
      cases h2 : scanLines recur subPath rest st1 with
      | error e => rw [h2] at h; exact absurd h (by simp)
      | ok w =>
        obtain ⟨fs2, st2⟩ := w
        rw [h2] at h
        simp only [Except.ok.injEq, Prod.mk.injEq] at h
        obtain ⟨rfl, rfl⟩ := h
        exact (scanLine_scanOk hrec h1).comp (scanLines_scanOk hrec h2)

/-- A successful `scan_files` walk satisfies the seen-set contract. -/
theorem scan_files_scanOk :
    ∀ {fuel : Nat} {store : Store} {treeHash : String} {subPath : Path} {st : ScanState}
      {fs : List DataFile} {st' : ScanState},
      scan_files fuel store treeHash subPath st = .ok (fs, st') → ScanOk st fs st'
  | 0, _, _, _, _, _, _, h => absurd h (by simp [scan_files])
  | fuel + 1, store, treeHash, subPath, st, fs, st', h => by
    unfold scan_files at h
    split at h
    · simp only [Except.ok.injEq, Prod.mk.injEq] at h
      obtain ⟨rfl, rfl⟩ := h
      exact ScanOk.rfl
    · split at h
      · exact absurd h (by simp)
      · rename_i out _
        cases h2 : scanLines (scan_files fuel store) subPath (pyLines (pyStrip out)) st with
        | error e => rw [h2] at h; exact absurd h (by simp)
        | ok v =>
          obtain ⟨fs1, st1⟩ := v
          rw [h2] at h
          dsimp only at h
          simp only [Except.ok.injEq, Prod.mk.injEq] at h
          obtain ⟨rfl, rfl⟩ := h
          exact (scanLines_scanOk (fun _ _ _ _ _ hr => scan_files_scanOk hr) h2).congrSeen rfl

theorem allFiles_append (l1 l2 : List (Commit × List DataFile)) :
    allFiles (l1 ++ l2) = allFiles l1 ++ allFiles l2 := by
  induction l1 with
  | nil => simp [allFiles]
  | cons p rest ih =>
    obtain ⟨c, fs⟩ := p
    simp [allFiles, ih]

/-- The commit loop of `main` preserves the seen-set contract of the
accumulated mapping. -/
theorem mainLoop_scanOk {fuel : Nat} {store : Store} {repoPath : Path} {st0 : ScanState} :
    ∀ {cs : List Commit} {acc : List (Commit × List DataFile)} {st : ScanState}
      {res : List (Commit × List DataFile)} {stF : ScanState},
      ScanOk st0 (allFiles acc) st →
      cs.foldlM (mainStep fuel store repoPath) (acc, st) = .ok (res, stF) →
      ScanOk st0 (allFiles res) stF
  | [], acc, st, res, stF, hinv, h => by
    simp only [List.foldlM_nil, pure, Except.pure, Except.ok.injEq, Prod.mk.injEq] at h
    obtain ⟨rfl, rfl⟩ := h
    exact hinv
  | c :: cs, acc, st, res, stF, hinv, h => by
    rw [List.foldlM_cons] at h
    unfold mainStep at h
    cases h1 : scan_files fuel store c.tree_hash repoPath st with
    | error e => rw [h1] at h; exact absurd h (by simp [Bind.bind, Except.bind])
    | ok v =>
      obtain ⟨fs, st'⟩ := v
      rw [h1] at h
      dsimp only at h
      have hstep : ScanOk st0 (allFiles acc ++ fs) st' :=
        hinv.comp (scan_files_scanOk h1)
      by_cases hfs : fs = []
      · rw [if_pos hfs] at h
        simp only [Bind.bind, Except.bind] at h
        refine mainLoop_scanOk ?_ h
        rw [hfs, List.append_nil] at hstep
        exact hstep
      · rw [if_neg hfs] at h
        simp only [Bind.bind, Except.bind] at h
        refine mainLoop_scanOk ?_ h
        rw [allFiles_append]
        simpa [allFiles] using hstep

/-- The commits recorded by `main`'s loop are a subsequence of the commits
it iterates over. -/
theorem mainLoop_sublist {fuel : Nat} {store : Store} {repoPath : Path} :
    ∀ {cs : List Commit} {acc : List (Commit × List DataFile)} {st : ScanState}
      {res : List (Commit × List DataFile)} {stF : ScanState},
      cs.foldlM (mainStep fuel store repoPath) (acc, st) = .ok (res, stF) →
      List.Sublist (res.map Prod.fst) (acc.map Prod.fst ++ cs)
  | [], acc, st, res, stF, h => by
    simp only [List.foldlM_nil, pure, Except.pure, Except.ok.injEq, Prod.mk.injEq] at h
    obtain ⟨rfl, rfl⟩ := h
    simp
  | c :: cs, acc, st, res, stF, h => by
    rw [List.foldlM_cons] at h
    unfold mainStep at h
    cases h1 : scan_files fuel store c.tree_hash repoPath st with
    | error e => rw [h1] at h; exact absurd h (by simp [Bind.bind, Except.bind])
    | ok v =>
      obtain ⟨fs, st'⟩ := v
      rw [h1] at h
      dsimp only at h
      by_cases hfs : fs = []
      · rw [if_pos hfs] at h
        simp only [Bind.bind, Except.bind] at h
        have hsub := mainLoop_sublist h
        exact hsub.trans ((List.sublist_cons_self c cs).append_left (acc.map Prod.fst))
      · rw [if_neg hfs] at h
        simp only [Bind.bind, Except.bind] at h
        have := mainLoop_sublist h
        simpa using this

/-- The commit loop of `main` only records non-empty file lists. -/
theorem mainLoop_nonempty {fuel : Nat} {store : Store} {repoPath : Path} :
    ∀ {cs : List Commit} {acc : List (Commit × List DataFile)} {st : ScanState}
      {res : List (Commit × List DataFile)} {stF : ScanState},
      (∀ p ∈ acc, p.2 ≠ []) →
      cs.foldlM (mainStep fuel store repoPath) (acc, st) = .ok (res, stF) →
      ∀ p ∈ res, p.2 ≠ []
  | [], acc, st, res, stF, hacc, h => by
    simp only [List.foldlM_nil, pure, Except.pure, Except.ok.injEq, Prod.mk.injEq] at h
    obtain ⟨rfl, rfl⟩ := h
    exact hacc
  | c :: cs, acc, st, res, stF, hacc, h => by
    rw [List.foldlM_cons] at h
    unfold mainStep at h
    cases h1 : scan_files fuel store c.tree_hash repoPath st with
    | error e => rw [h1] at h; exact absurd h (by simp [Bind.bind, Except.bind])
    | ok v =>
      obtain ⟨fs, st'⟩ := v
      rw [h1] at h
      dsimp only at h
      by_cases hfs : fs = []
      · rw [if_pos hfs] at h
        simp only [Bind.bind, Except.bind] at h
        exact mainLoop_nonempty hacc h
      · rw [if_neg hfs] at h
        simp only [Bind.bind, Except.bind] at h
        refine mainLoop_nonempty ?_ h
        intro p hp
        rcases List.mem_append.mp hp with hp | hp
        · exact hacc p hp
        · rcases List.mem_singleton.mp hp with rfl
          exact hfs

/-- An entry line that does not split into exactly four fields makes
`scanLine` raise the unpacking error, whatever the state. -/
theorem scanLine_badSplit
    {recur : String → Path → ScanState → Except ScanErr (List DataFile × ScanState)}
    {subPath : Path} {line : String} {st : ScanState}
    (hbad : (pySplit line).length ≠ 4) :
    scanLine recur subPath line st = .error .unpack := by
  unfold scanLine
  split
  · rename_i heq
    exact absurd (by rw [heq]; rfl) hbad
  · rfl

/-- A bad entry line anywhere in the list prevents `scanLines` from
returning a result. -/
theorem scanLines_badLine
    {recur : String → Path → ScanState → Except ScanErr (List DataFile × ScanState)}
    {subPath : Path} :
    ∀ {lines : List String} {st : ScanState},
      (∃ line ∈ lines, (pySplit line).length ≠ 4) →
      ∀ r, scanLines recur subPath lines st ≠ .ok r
  | [], _, hbad, r => by
    obtain ⟨line, hmem, _⟩ := hbad
    exact absurd hmem (List.not_mem_nil line)
  | line :: rest, st, hbad, r => by
    intro h
    unfold scanLines at h
    obtain ⟨l, hmem, hlen⟩ := hbad
    rcases List.mem_cons.mp hmem with rfl | hmem
    · rw [scanLine_badSplit hlen] at h
      exact absurd h (by simp)
    · cases h1 : scanLine recur subPath line st with
      | error e => rw [h1] at h; exact absurd h (by simp)
      | ok v =>
        obtain ⟨fs1, st1⟩ := v
        rw [h1] at h
        dsimp only at h
        cases h2 : scanLines recur subPath rest st1 with
        | error e => rw [h2] at h; exact absurd h (by simp)
        | ok w => exact scanLines_badLine ⟨l, hmem, hlen⟩ w h2

/-- A listing line that does not split into exactly three fields makes
`parseListingLine` raise the unpacking error. -/
theorem parseListingLine_badSplit {line : String}
    (hbad : (pySplit line).length ≠ 3) :
    parseListingLine line = .error .unpack := by
  unfold parseListingLine
  split
  · rename_i heq
    exact absurd (by rw [heq]; rfl) hbad
  · rfl

/-- `parseListingLine` can only fail with the unpacking error. -/
theorem parseListingLine_cases (line : String) :
    parseListingLine line = .error .unpack ∨ ∃ v, parseListingLine line = .ok v := by
  unfold parseListingLine
  split
  · exact .inr ⟨_, rfl⟩
  · exact .inl rfl

/-- A bad line anywhere in the batch listing makes the whole `mapM` fail
with the unpacking error. -/
theorem mapM_listing_badLine :
    ∀ {lines : List String},
      (∃ line ∈ lines, (pySplit line).length ≠ 3) →
      lines.mapM parseListingLine = .error .unpack
  | [], hbad => by
    obtain ⟨line, hmem, _⟩ := hbad
    exact absurd hmem (List.not_mem_nil line)
  | line :: rest, hbad => by
    rw [List.mapM_cons]
    obtain ⟨l, hmem, hlen⟩ := hbad
    rcases List.mem_cons.mp hmem with rfl | hmem
    · rw [parseListingLine_badSplit hlen]
      rfl
    · rcases parseListingLine_cases line with h1 | ⟨v, h1⟩
      · rw [h1]; rfl
      · rw [h1, mapM_listing_badLine ⟨l, hmem, hlen⟩]
        rfl

/-- If some element of a `mapM` over `Except` fails, the whole `mapM`
fails. -/
theorem mapM_mem_error {α β : Type} {f : α → Except ScanErr β} :
    ∀ {xs : List α} {x : α}, x ∈ xs → (∀ v, f x ≠ .ok v) →
      ∀ r, xs.mapM f ≠ .ok r
  | [], x, hmem, _, _ => absurd hmem (List.not_mem_nil x)
  | a :: rest, x, hmem, hfail, r => by
    intro h
    rw [List.mapM_cons] at h
    rcases List.mem_cons.mp hmem with rfl | hmem
    · cases h1 : f x with
      | error e => rw [h1] at h; exact absurd h (by simp [Bind.bind, Except.bind])
      | ok v => exact hfail v h1
    · cases h1 : f a with
      | error e => rw [h1] at h; exact absurd h (by simp [Bind.bind, Except.bind])
      | ok v =>
        rw [h1] at h
        simp only [Bind.bind, Except.bind] at h
        cases h2 : rest.mapM f with
        | error e => rw [h2] at h; exact absurd h (by simp)
        | ok vs => exact mapM_mem_error hmem hfail vs h2

/-- One `parseFields` step on a line that does not start with
`committer` leaves the timestamp and timezone fields untouched. -/
theorem parseFields_step_noCommitter {acc0 acc1 : String × String × String} {line : String}
    (hline : pyStartsWith line "committer" = false)
    (h : parseFields acc0 line = .ok acc1) : acc1.2 = acc0.2 := by
  unfold parseFields at h
  split at h
  · split at h
    · simp only [Except.ok.injEq] at h
      rw [← h]
    · exact absurd h (by simp)
  · rw [if_neg (by rw [hline]; exact Bool.false_ne_true)] at h
    simp only [Except.ok.injEq] at h
    rw [← h]

/-- One `parseFields` step on a line that does not start with `tree`
leaves the tree-hash field untouched. -/
theorem parseFields_step_noTree {acc0 acc1 : String × String × String} {line : String}
    (hline : pyStartsWith line "tree" = false)
    (h : parseFields acc0 line = .ok acc1) : acc1.1 = acc0.1 := by
  unfold parseFields at h
  rw [if_neg (by rw [hline]; exact Bool.false_ne_true)] at h
  split at h
  · split at h
    · simp only [Except.ok.injEq] at h
      rw [← h]
    · exact absurd h (by simp)
  · simp only [Except.ok.injEq] at h
    rw [← h]

/-- Lines that never start with `committer` leave the timestamp and
timezone accumulator fields untouched. -/
theorem parseFields_noCommitter :
    ∀ {lines : List String} {acc0 acc : String × String × String},
      (∀ l ∈ lines, pyStartsWith l "committer" = false) →
      lines.foldlM parseFields acc0 = .ok acc →
      acc.2 = acc0.2
  | [], acc0, acc, _, h => by
    simp only [List.foldlM_nil, pure, Except.pure, Except.ok.injEq] at h
    rw [h]
  | line :: rest, acc0, acc, hno, h => by
    rw [List.foldlM_cons] at h
    cases h1 : parseFields acc0 line with
    | error e => rw [h1] at h; exact absurd h (by simp [Bind.bind, Except.bind])
    | ok acc1 =>
      rw [h1] at h
      simp only [Bind.bind, Except.bind] at h
      have hrest := parseFields_noCommitter (fun l hl => hno l (List.mem_cons_of_mem _ hl)) h
      rw [hrest, parseFields_step_noCommitter (hno line (List.mem_cons_self _ _)) h1]

/-- Lines that never start with `tree` leave the tree-hash accumulator
field untouched. -/
theorem parseFields_noTree :
    ∀ {lines : List String} {acc0 acc : String × String × String},
      (∀ l ∈ lines, pyStartsWith l "tree" = false) →
      lines.foldlM parseFields acc0 = .ok acc →
      acc.1 = acc0.1
  | [], acc0, acc, _, h => by
    simp only [List.foldlM_nil, pure, Except.pure, Except.ok.injEq] at h
    rw [h]
  | line :: rest, acc0, acc, hno, h => by
    rw [List.foldlM_cons] at h
    cases h1 : parseFields acc0 line with
    | error e => rw [h1] at h; exact absurd h (by simp [Bind.bind, Except.bind])
    | ok acc1 =>
      rw [h1] at h
      simp only [Bind.bind, Except.bind] at h
      have hrest := parseFields_noTree (fun l hl => hno l (List.mem_cons_of_mem _ hl)) h
      rw [hrest, parseFields_step_noTree (hno line (List.mem_cons_self _ _)) h1]

/-- The sorted commit list is pairwise ordered by timestamp. -/
theorem sortCommits_sorted (cs : List Commit) :
    List.Pairwise (fun a b => a.time ≤ b.time) (sortCommits cs) := by
  haveI : IsTotal Commit (fun a b => a.time ≤ b.time) := ⟨fun a b => Int.le_total a.time b.time⟩
  haveI : IsTrans Commit (fun a b => a.time ≤ b.time) := ⟨fun _ _ _ hab hbc => le_trans hab hbc⟩
  exact List.sorted_insertionSort _ cs

/-- Stability of the commit sort: commits of any fixed timestamp keep
their input order. -/
theorem sortCommits_filter_time (cs : List Commit) (t : Int) :
    (sortCommits cs).filter (fun c => c.time == t) = cs.filter (fun c => c.time == t) := by
  have hpw : List.Pairwise (fun a b => a.time ≤ b.time) (cs.filter (fun c => c.time == t)) := by
    apply List.pairwise_of_forall_mem_list
    intro a ha b hb
    have ha' : a.time = t := by simpa using (List.mem_filter.mp ha).2
    have hb' : b.time = t := by simpa using (List.mem_filter.mp hb).2
    rw [ha', hb']
  have hsub : List.Sublist (cs.filter (fun c => c.time == t)) (sortCommits cs) :=
    List.sublist_insertionSort hpw (List.filter_sublist cs)
  have hsub2 : List.Sublist (cs.filter (fun c => c.time == t))
      ((sortCommits cs).filter (fun c => c.time == t)) := by
    have hh := List.Sublist.filter (fun c => c.time == t) hsub
    rwa [List.filter_eq_self.mpr (fun a ha => (List.mem_filter.mp ha).2)] at hh
  have hperm : List.Perm ((sortCommits cs).filter (fun c => c.time == t))
      (cs.filter (fun c => c.time == t)) :=
    (List.perm_insertionSort _ cs).filter _
  exact (hsub2.eq_of_length hperm.length_eq.symm).symm

/-- A space-free suffix of `u ++ ' ' :: v` is a suffix of `v`. -/
theorem suffix_append_space {t u v : List Char} (hsp : ' ' ∉ t) :
    List.IsSuffix t (u ++ ' ' :: v) ↔ List.IsSuffix t v := by
  constructor
  · intro h
    have hsv : List.IsSuffix (' ' :: v) (u ++ ' ' :: v) := List.suffix_append u (' ' :: v)
    rcases List.suffix_or_suffix_of_suffix h hsv with h1 | h2
    · rcases List.suffix_cons_iff.mp h1 with h3 | h3
      · exact absurd (h3 ▸ List.mem_cons_self ' ' v) hsp
      · exact h3
    · exact absurd (h2.subset (List.mem_cons_self ' ' v)) hsp
  · intro h
    exact h.trans ((List.suffix_cons ' ' v).trans (List.suffix_append u (' ' :: v)))

/-- `line.endswith(ext)` on a well-formed entry line, whose entry name is
the text after the last space, agrees with `name.endswith(ext)` for any
space-free extension. -/
theorem pyEndsWith_append_space (pre name ext : String) (hsp : ' ' ∉ ext.data) :
    pyEndsWith (pre ++ " " ++ name) ext = pyEndsWith name ext := by
  unfold pyEndsWith
  have hdata : (pre ++ " " ++ name).data = pre.data ++ ' ' :: name.data := by
    rw [String.data_append, String.data_append, List.append_assoc]
    rfl
  rw [hdata, Bool.eq_iff_iff]
  simp only [List.isSuffixOf_iff_suffix]
  exact suffix_append_space hsp

/-- Inversion of a successful `runScan`. -/
theorem runScan_ok_inv {fuel : Nat} {store : Store} {listing : String} {repoPath : Path}
    {m : List (Commit × List DataFile)}
    (h : runScan fuel store listing repoPath = .ok m) :
    ∃ objs commits stF,
      get_all_objects listing = .ok objs ∧
      get_commits store ((objs.filter (fun p => p.2 = "commit")).map (·.1)) = .ok commits ∧
      commits.foldlM (mainStep fuel store repoPath) ([], ⟨[], []⟩) = .ok (m, stF) := by
  unfold runScan at h
  cases h1 : get_all_objects listing with
  | error e => rw [h1] at h; exact absurd h (by simp)
  | ok objs =>
    rw [h1] at h
    dsimp only at h
    cases h2 : get_commits store ((objs.filter (fun p => p.2 = "commit")).map (·.1)) with
    | error e => rw [h2] at h; exact absurd h (by simp)
    | ok commits =>
      rw [h2] at h
      dsimp only at h
      cases h3 : commits.foldlM (mainStep fuel store repoPath) ([], ⟨[], []⟩) with
      | error e => rw [h3] at h; exact absurd h (by simp)
      | ok v =>
        obtain ⟨res, stF⟩ := v
        rw [h3] at h
        dsimp only at h
        simp only [Except.ok.injEq] at h
        subst h
        exact ⟨objs, commits, stF, rfl, h2, h3⟩

/-- Inversion of a successful `get_commits`. -/
theorem get_commits_ok_inv {store : Store} {hashes : List String} {commits : List Commit}
    (h : get_commits store hashes = .ok commits) :
    ∃ cs0, hashes.mapM (fetchCommit store) = .ok cs0 ∧ commits = sortCommits cs0 := by
  unfold get_commits at h
  cases h1 : hashes.mapM (fetchCommit store) with
  | error e => rw [h1] at h; exact absurd h (by simp)
  | ok cs0 =>
    rw [h1] at h
    dsimp only at h
    simp only [Except.ok.injEq] at h
    exact ⟨cs0, rfl, h.symm⟩

/-! ### The claims -/

/-- Claim C1: a tree identifier already present in the memo table makes a
(fuelled) walk return the empty list with the state unchanged, so a second
encounter of a tree identifier contributes no data files; and every
successful walk leaves the identifier bound in the memo table — bound to
the accumulated list itself (even when empty) whenever the identifier was
not cached on entry. -/
theorem tree_memo_idempotent :
    (∀ (fuel : Nat) (store : Store) (treeHash : String) (subPath : Path) (st : ScanState),
      (st.treeCache.lookup treeHash).isSome →
      scan_files (fuel + 1) store treeHash subPath st = .ok ([], st)) ∧
    (∀ (fuel : Nat) (store : Store) (treeHash : String) (subPath : Path) (st : ScanState)
       (fs : List DataFile) (st' : ScanState),
      scan_files fuel store treeHash subPath st = .ok (fs, st') →
      (st'.treeCache.lookup treeHash).isSome ∧
      (st.treeCache.lookup treeHash = none → st'.treeCache.lookup treeHash = some fs)) := by
  constructor
  · intro fuel store treeHash subPath st hsome
    unfold scan_files
    rw [if_pos hsome]
  · intro fuel store treeHash subPath st fs st' h
    match fuel with
    | 0 => exact absurd h (by simp [scan_files])
    | fuel + 1 =>
      unfold scan_files at h
      split at h
      · rename_i hsome
        simp only [Except.ok.injEq, Prod.mk.injEq] at h
        obtain ⟨rfl, rfl⟩ := h
        refine ⟨hsome, fun hnone => ?_⟩
        rw [hnone] at hsome
        exact absurd hsome (by simp)
      · split at h
        · exact absurd h (by simp)
        · rename_i out _
          cases h2 : scanLines (scan_files fuel store) subPath (pyLines (pyStrip out)) st with
          | error e => rw [h2] at h; exact absurd h (by simp)
          | ok v =>
            obtain ⟨fs1, st1⟩ := v
            rw [h2] at h
            dsimp only at h
            simp only [Except.ok.injEq, Prod.mk.injEq] at h
            obtain ⟨rfl, rfl⟩ := h
            constructor
            · simp [List.lookup_cons_self]
            · intro _
              simp [List.lookup_cons_self]

/-- Witness for C1: with the hash `t` cached, the walk of `t` returns the
empty list and changes nothing; with an empty initial state, the walk of
`t` ends with the memo table binding `t` to the reported list. -/
theorem tree_memo_idempotent_witness :
    scan_files 1 memoStore "t" [] memoCachedState = .ok ([], memoCachedState) ∧
    (⟨[("t", [⟨"a.csv", [], "h1"⟩])], ["h1_._a.csv"]⟩ : ScanState).treeCache.lookup "t" =
      some [⟨"a.csv", [], "h1"⟩] := by
  constructor
  · exact tree_memo_idempotent.1 0 memoStore "t" [] memoCachedState (by rfl)
  · exact (tree_memo_idempotent.2 1 memoStore "t" [] ⟨[], []⟩ [⟨"a.csv", [], "h1"⟩]
      ⟨[("t", [⟨"a.csv", [], "h1"⟩])], ["h1_._a.csv"]⟩ (by rfl)).2 (by rfl)

/-- Claim C2: across the whole result mapping of one scan, no two reported
data files agree on (content hash, containing folder, name). -/
theorem blob_dedup (fuel : Nat) (store : Store) (listing : String) (repoPath : Path)
    (m : List (Commit × List DataFile))
    (h : runScan fuel store listing repoPath = .ok m) :
    (allFiles m).Pairwise
      (fun a b => ¬(a.hash = b.hash ∧ a.folder = b.folder ∧ a.name = b.name)) := by
  obtain ⟨objs, commits, stF, h1, h2, h3⟩ := runScan_ok_inv h
  have hok : ScanOk ⟨[], []⟩ (allFiles m) stF := mainLoop_scanOk ScanOk.rfl h3
  refine hok.2.2.2.imp ?_
  intro a b hk htriple
  obtain ⟨hh, hf, hn⟩ := htriple
  apply hk
  unfold DataFile.key blobKey
  rw [hh, hf, hn]

/-- Witness for C2: the scan of `dupStore`, whose second tree repeats the
blob of the first, reports each (hash, folder, name) triple once. -/
theorem blob_dedup_witness :
    (allFiles [(⟨"c1", "TA", 100, 0⟩, [⟨"d.csv", [], "h"⟩])]).Pairwise
      (fun a b => ¬(a.hash = b.hash ∧ a.folder = b.folder ∧ a.name = b.name)) :=
  blob_dedup 3 dupStore dupListing []
    [(⟨"c1", "TA", 100, 0⟩, [⟨"d.csv", [], "h"⟩])] (by rfl)

/-- Claim C3: the commit sort is ascending by timestamp; it is stable, so
commits of equal timestamp keep their enumeration order; and the commits
of the final mapping appear in non-decreasing timestamp order — in
particular a commit with a strictly earlier timestamp always precedes one
with a strictly later timestamp in the mapping's iteration order. -/
theorem commit_ordering :
    (∀ cs : List Commit, List.Pairwise (fun a b => a.time ≤ b.time) (sortCommits cs)) ∧
    (∀ (cs : List Commit) (t : Int),
      (sortCommits cs).filter (fun c => c.time == t) = cs.filter (fun c => c.time == t)) ∧
    (∀ (fuel : Nat) (store : Store) (listing : String) (repoPath : Path)
       (m : List (Commit × List DataFile)),
      runScan fuel store listing repoPath = .ok m →
      List.Pairwise (fun a b => a.time ≤ b.time) (m.map Prod.fst) ∧
      (∀ i j : Fin (m.map Prod.fst).length,
        ((m.map Prod.fst).get i).time < ((m.map Prod.fst).get j).time → i < j)) := by
  refine ⟨sortCommits_sorted, sortCommits_filter_time, ?_⟩
  intro fuel store listing repoPath m h
  obtain ⟨objs, commits, stF, h1, h2, h3⟩ := runScan_ok_inv h
  obtain ⟨cs0, hmap, rfl⟩ := get_commits_ok_inv h2
  have hsub := mainLoop_sublist h3
  simp only [List.map_nil, List.nil_append] at hsub
  have hpw : List.Pairwise (fun a b => a.time ≤ b.time) (m.map Prod.fst) :=
    List.Pairwise.sublist hsub (sortCommits_sorted cs0)
  refine ⟨hpw, ?_⟩
  intro i j hlt
  rcases lt_trichotomy (i : Nat) (j : Nat) with hij | hij | hij
  · exact hij
  · exact absurd hlt (by rw [Fin.ext hij]; exact lt_irrefl _)
  · have := (List.pairwise_iff_get.mp hpw) j i hij
    exact absurd (lt_of_lt_of_le hlt this) (lt_irrefl _)

/-- Witness for C3: sorting three concrete commits (timestamps 200, 100,
100) yields ascending order, the two tied commits keep their input order,
and the mapping produced from `twoStore` (whose listing is newest-first)
is in ascending timestamp order. -/
theorem commit_ordering_witness :
    List.Pairwise (fun a b => a.time ≤ b.time)
      (sortCommits [⟨"x", "", 200, 0⟩, ⟨"y", "", 100, 0⟩, ⟨"z", "", 100, 0⟩]) ∧
    (sortCommits [⟨"x", "", 200, 0⟩, ⟨"y", "", 100, 0⟩, ⟨"z", "", 100, 0⟩]).filter
        (fun c => c.time == 100) =
      ([⟨"x", "", 200, 0⟩, ⟨"y", "", 100, 0⟩, ⟨"z", "", 100, 0⟩] : List Commit).filter
        (fun c => c.time == 100) ∧
    List.Pairwise (fun a b => a.time ≤ b.time)
      (([(⟨"c2", "TB", 100, 0⟩, [⟨"b.csv", [], "hb"⟩]),
         (⟨"c1", "TA", 200, 0⟩, [⟨"a.csv", [], "ha"⟩])] :
          List (Commit × List DataFile)).map Prod.fst) := by
  refine ⟨?_, ?_, ?_⟩
  · exact commit_ordering.1 [⟨"x", "", 200, 0⟩, ⟨"y", "", 100, 0⟩, ⟨"z", "", 100, 0⟩]
  · exact commit_ordering.2.1 [⟨"x", "", 200, 0⟩, ⟨"y", "", 100, 0⟩, ⟨"z", "", 100, 0⟩] 100
  · exact (commit_ordering.2.2 3 twoStore twoListing []
      [(⟨"c2", "TB", 100, 0⟩, [⟨"b.csv", [], "hb"⟩]),
       (⟨"c1", "TA", 200, 0⟩, [⟨"a.csv", [], "ha"⟩])] (by rfl)).1

/-- Claim C4 (code bug): the code applies the sign of the offset string to
the hours only, so `-0530` becomes `timezone(timedelta(hours=-5,
minutes=30))`, a fixed offset of −270 minutes (−4:30) — not the −330
minutes (−5:30) of a true −5h30m offset. -/
theorem timezone_sign_bug :
    convert_timezone "-0530" = .ok (-270) ∧ ((-270 : Int) = -(5 * 60 + 30)) = False := by
  constructor
  · rfl
  · simp only [eq_iff_iff, iff_false]
    decide

/-- Claim C5 counterexample: a commit content with a `committer` line but
no `tree` field parses successfully — no error of any kind is raised, the
tree hash is silently defaulted to the empty string. -/
theorem malformed_commit_counterexample :
    parse_commit "c1" "committer Ann <a@b.c> 100 +0000" = .ok ⟨"c1", "", 100, 0⟩ := by rfl

/-- Claim C5 (amended): a commit content with no `committer` line fails
parsing — with the `ValueError` of `int("")`, as the code defines no
`MalformedCommitError` — and such a commit anywhere in the object listing
aborts the scan before any mapping is produced; a missing `tree` field
alone does not fail parsing: the tree hash is silently defaulted to the
empty string. -/
theorem malformed_commit_behaviour :
    (∀ chash content : String,
      (∀ l ∈ pyLines (pyStrip content), pyStartsWith l "committer" = false) →
      ∃ e, parse_commit chash content = .error e) ∧
    (∀ (fuel : Nat) (store : Store) (listing : String) (repoPath : Path)
       (objs : List (String × String)) (chash content : String),
      get_all_objects listing = .ok objs →
      (chash, "commit") ∈ objs →
      store chash = some content →
      (∀ l ∈ pyLines (pyStrip content), pyStartsWith l "committer" = false) →
      ∃ e, runScan fuel store listing repoPath = .error e) ∧
    (∀ (chash content : String) (c : Commit),
      (∀ l ∈ pyLines (pyStrip content), pyStartsWith l "tree" = false) →
      parse_commit chash content = .ok c →
      c.tree_hash = "") := by
  have hpart1 : ∀ chash content : String,
      (∀ l ∈ pyLines (pyStrip content), pyStartsWith l "committer" = false) →
      ∃ e, parse_commit chash content = .error e := by
    intro chash content hno
    unfold parse_commit
    cases hf : (pyLines (pyStrip content)).foldlM parseFields ("", "", "") with
    | error e => exact ⟨e, rfl⟩
    | ok acc =>
      have hacc : acc.2 = ("", "") := parseFields_noCommitter hno hf
      have h22 : acc.2.2 = "" := by rw [hacc]
      refine ⟨.value, ?_⟩
      dsimp only
      rw [h22]
      rfl
  refine ⟨hpart1, ?_, ?_⟩
  · intro fuel store listing repoPath objs chash content hobjs hmem hstore hno
    have hhash : chash ∈ (objs.filter (fun p => p.2 = "commit")).map (·.1) :=
      List.mem_map.mpr ⟨(chash, "commit"), List.mem_filter.mpr ⟨hmem, by simp⟩, rfl⟩
    have hfail : ∀ v, fetchCommit store chash ≠ .ok v := by
      intro v hv
      unfold fetchCommit at hv
      rw [hstore] at hv
      dsimp only at hv
      obtain ⟨e, he⟩ := hpart1 chash content hno
      rw [he] at hv
      exact absurd hv (by simp)
    unfold runScan
    rw [hobjs]
    dsimp only
    cases hgc : get_commits store ((objs.filter (fun p => p.2 = "commit")).map (·.1)) with
    | error e => exact ⟨e, rfl⟩
    | ok commits =>
      obtain ⟨cs0, hmap, _⟩ := get_commits_ok_inv hgc
      exact absurd hmap (mapM_mem_error hhash hfail cs0)
  · intro chash content c hno hok
    unfold parse_commit at hok
    cases hf : (pyLines (pyStrip content)).foldlM parseFields ("", "", "") with
    | error e => rw [hf] at hok; exact absurd hok (by simp)
    | ok acc =>
      rw [hf] at hok
      dsimp only at hok
      have hacc : acc.1 = "" := parseFields_noTree hno hf
      cases htz : convert_timezone acc.2.2 with
      | error e => rw [htz] at hok; exact absurd hok (by simp)
      | ok tz =>
        rw [htz] at hok
        dsimp only at hok
        cases hint : pyInt acc.2.1 with
        | none => rw [hint] at hok; exact absurd hok (by simp)
        | some time =>
          rw [hint] at hok
          dsimp only at hok
          simp only [Except.ok.injEq] at hok
          rw [← hok]
          exact hacc

/-- Witness for C5: the committer-less content `tree t9` fails to parse,
and a scan over a store whose only commit has that content aborts. -/
theorem malformed_commit_behaviour_witness :
    (∃ e, parse_commit "cx" "tree t9" = .error e) ∧
    (∃ e, runScan 3 noCommitterStore noCommitterListing [] = .error e) ∧
    (⟨"c1", "", 100, 0⟩ : Commit).tree_hash = "" := by
  refine ⟨?_, ?_, ?_⟩
  · exact malformed_commit_behaviour.1 "cx" "tree t9" (by decide)
  · exact malformed_commit_behaviour.2.1 3 noCommitterStore noCommitterListing []
      [("cx", "commit"), ("t9", "tree")] "cx" "tree t9" (by rfl) (by decide) (by rfl) (by decide)
  · exact malformed_commit_behaviour.2.2 "c1" "committer Ann <a@b.c> 100 +0000"
      ⟨"c1", "", 100, 0⟩ (by decide) (by rfl)

/-- Claim C6: with the default repository path (`Path(".")`, whose parts
are empty) the walker starts each commit's root tree at the empty subpath:
a store with one commit whose tree holds the single blob `sales.xlsx`
yields exactly one `DataFile` named `sales.xlsx` with the empty root
folder and that blob's hash, recorded under that commit; and commits whose
walk returns the empty list never appear in the mapping. -/
theorem root_walk_scenario :
    runScan 3 oneStore oneListing [] =
      .ok [(⟨"c1", "t1", 100, 0⟩, [⟨"sales.xlsx", [], "b1"⟩])] ∧
    (∀ (fuel : Nat) (store : Store) (listing : String) (repoPath : Path)
       (m : List (Commit × List DataFile)) (p : Commit × List DataFile),
      runScan fuel store listing repoPath = .ok m → p ∈ m → p.2 ≠ []) := by
  constructor
  · rfl
  · intro fuel store listing repoPath m p h hp
    obtain ⟨objs, commits, stF, h1, h2, h3⟩ := runScan_ok_inv h
    exact mainLoop_nonempty (fun q hq => absurd hq (List.not_mem_nil q)) h3 p hp

/-- Witness for C6: the single mapping entry of the `oneStore` scan has a
non-empty file list. -/
theorem root_walk_scenario_witness :
    ((⟨"c1", "t1", 100, 0⟩, [⟨"sales.xlsx", [], "b1"⟩]) :
        Commit × List DataFile).2 ≠ [] :=
  root_walk_scenario.2 3 oneStore oneListing []
    [(⟨"c1", "t1", 100, 0⟩, [⟨"sales.xlsx", [], "b1"⟩])]
    (⟨"c1", "t1", 100, 0⟩, [⟨"sales.xlsx", [], "b1"⟩]) (by rfl) (by simp)

/-- Claim C7: on a well-formed blob entry line — any prefix followed by a
space and the entry name — the extension test succeeds exactly when the
name ends with one of the configured extension strings, case-sensitively;
in particular `data.CSV` is rejected, `data.csv` accepted,
`archive.xml.bak` rejected and `report.xls` accepted. -/
theorem extension_matching :
    (∀ pre name : String,
      (matchesExtensions (pre ++ " " ++ name) = true ↔
        ∃ ext ∈ EXTENSIONS, pyEndsWith name ext = true)) ∧
    matchesExtensions "100644 blob h1 data.CSV" = false ∧
    matchesExtensions "100644 blob h1 data.csv" = true ∧
    matchesExtensions "100644 blob h1 archive.xml.bak" = false ∧
    matchesExtensions "100644 blob h1 report.xls" = true := by
  refine ⟨?_, by rfl, by rfl, by rfl, by rfl⟩
  intro pre name
  have hsp : ∀ e ∈ EXTENSIONS, ' ' ∉ e.data := by decide
  unfold matchesExtensions
  rw [List.any_eq_true]
  constructor
  · rintro ⟨ext, hmem, hend⟩
    refine ⟨ext, hmem, ?_⟩
    rwa [pyEndsWith_append_space pre name ext (hsp ext hmem)] at hend
  · rintro ⟨ext, hmem, hend⟩
    refine ⟨ext, hmem, ?_⟩
    rwa [pyEndsWith_append_space pre name ext (hsp ext hmem)]

/-- Witness for C7: the general suffix characterisation applied to the
line `100644 blob b9 notes.xlsx`. -/
theorem extension_matching_witness :
    matchesExtensions ("100644 blob b9" ++ " " ++ "notes.xlsx") = true :=
  (extension_matching.1 "100644 blob b9" "notes.xlsx").mpr ⟨"xlsx", by decide, by rfl⟩

/-- Claim C8 (code bug): a tree object with no entries does not return an
empty cached list — the walk raises the unpacking `ValueError` instead:
stripping the empty `cat-file` output and splitting it on newlines yields
the single empty line, whose `split()` has zero fields, so the four-way
unpacking fails. -/
theorem empty_tree_crash :
    scan_files 1 emptyTreeStore "t" [] ⟨[], []⟩ = .error .unpack ∧
    pyLines (pyStrip "") = [""] ∧
    pySplit "" = [] := by
  refine ⟨by rfl, by rfl, by rfl⟩

/-- Claim C9: the underscore-joined dedup key conflates distinct
(hash, folder, name) triples: blob `h` as `b_c.csv` under folder `a` and
blob `h` as `c.csv` under folder `a_b` share the key `h_a_b_c.csv`, so
after the first commit reports the latter, the second commit's
never-reported triple is skipped and appears in no commit's list. -/
theorem dedup_key_collision :
    blobKey "h" ["a"] "b_c.csv" = blobKey "h" ["a_b"] "c.csv" ∧
    (⟨"b_c.csv", ["a"], "h"⟩ : DataFile) ≠ (⟨"c.csv", ["a_b"], "h"⟩ : DataFile) ∧
    runScan 3 collisionStore collisionListing [] =
      .ok [(⟨"c1", "T1", 100, 0⟩, [⟨"c.csv", ["a_b"], "h"⟩])] ∧
    (⟨"b_c.csv", ["a"], "h"⟩ : DataFile) ∉
      allFiles [(⟨"c1", "T1", 100, 0⟩, [⟨"c.csv", ["a_b"], "h"⟩])] := by
  refine ⟨by rfl, by decide, by rfl, by decide⟩

/-- Claim C10: an uncached tree whose content has an entry line that does
not split into exactly four fields makes the walk fail instead of
returning a result, the offending line itself raising the unpacking error;
and a batch-listing line that does not split into exactly three fields
makes the object enumeration fail with the unpacking error. -/
theorem four_field_unpack :
    (∀ (fuel : Nat) (store : Store) (treeHash : String) (subPath : Path) (st : ScanState)
       (out : String),
      st.treeCache.lookup treeHash = none →
      store treeHash = some out →
      (∃ line ∈ pyLines (pyStrip out), (pySplit line).length ≠ 4) →
      ∃ e, scan_files fuel store treeHash subPath st = .error e) ∧
    (∀ (recur : String → Path → ScanState → Except ScanErr (List DataFile × ScanState))
       (subPath : Path) (line : String) (st : ScanState),
      (pySplit line).length ≠ 4 →
      scanLine recur subPath line st = .error .unpack) ∧
    (∀ listing : String,
      (∃ line ∈ pyLines (pyStrip listing), (pySplit line).length ≠ 3) →
      get_all_objects listing = .error .unpack) := by
  refine ⟨?_, fun recur subPath line st hbad => scanLine_badSplit hbad, ?_⟩
  · intro fuel store treeHash subPath st out hnone hstore hbad
    match fuel with
    | 0 => exact ⟨.fuel, rfl⟩
    | fuel + 1 =>
      unfold scan_files
      rw [hnone]
      simp only [Option.isSome_none, Bool.false_eq_true, if_false]
      rw [hstore]
      dsimp only
      cases h2 : scanLines (scan_files fuel store) subPath (pyLines (pyStrip out)) st with
      | error e => exact ⟨e, rfl⟩
      | ok v => exact absurd h2 (scanLines_badLine hbad v)
  · intro listing hbad
    unfold get_all_objects
    exact mapM_listing_badLine hbad

/-- Witness for C10: a tree whose single entry line has three fields makes
the walk fail; `scanLine` on that line raises the unpacking error; a
two-field listing line makes the enumeration raise the unpacking error. -/
theorem four_field_unpack_witness :
    (∃ e, scan_files 1 badLineStore "t" [] ⟨[], []⟩ = .error e) ∧
    scanLine (fun _ _ _ => .error .fuel) [] "100644 blob habc" ⟨[], []⟩ = .error .unpack ∧
    get_all_objects "c1 commit" = .error .unpack := by
  refine ⟨?_, ?_, ?_⟩
  · exact four_field_unpack.1 1 badLineStore "t" [] ⟨[], []⟩ "100644 blob habc"
      (by rfl) (by rfl) ⟨"100644 blob habc", by decide, by decide⟩
  · exact four_field_unpack.2.1 (fun _ _ _ => .error .fuel) [] "100644 blob habc"
      ⟨[], []⟩ (by decide)
  · exact four_field_unpack.2.2 "c1 commit" ⟨"c1 commit", by decide, by decide⟩

end GitScan
